import Mathlib

/- Verification development for the Naive-Bayes spam filter (NaiveBayes.py).

   The Python source is shallowly embedded:
   * the tokenizer `_tokenize_words` (re.findall of `[a-z0-9']+` with
     IGNORECASE, lowercased and deduplicated into a set) becomes a function
     from strings to `Finset String`;
   * the `SpamFilter` object becomes a structure; its two defaultdicts are
     modelled by (key-set, total function) pairs, where the function is the
     dict's default value `(0, 0)` off the key set, matching
     `defaultdict(lambda: [0, 0])`;
   * float arithmetic is embedded exactly: counts and stored probabilities
     as rationals, the log/exp inference as real arithmetic;
   * the dict-iteration loops accumulate with `+` on reals/naturals, so they
     are embedded as sums over the key set (iteration order is immaterial);
   * `random.randint(1, 100)` in `split_train_test` is modelled by an
     explicit oracle `rand : ℕ → ℕ` giving the outcome of the i-th draw, and
     `raise ValueError` by an `Except.error` result. -/

namespace NaiveBayes

/-- Character class of the source regex `[a-z0-9']+` compiled with
re.IGNORECASE, over the ASCII range: letters of either case, digits, and the
apostrophe.  The regex in the source does NOT include the dash character. -/
def isWordChar (c : Char) : Bool :=
  (97 ≤ c.toNat && c.toNat ≤ 122) ||
  (65 ≤ c.toNat && c.toNat ≤ 90) ||
  (48 ≤ c.toNat && c.toNat ≤ 57) ||
  (c.toNat == 39)

/-- Maximal runs of characters satisfying `p`, as produced by `re.findall`
with a single-character-class regex; `cur` holds the current run reversed. -/
def runsAux (p : Char → Bool) (cur : List Char) : List Char → List (List Char)
  | [] => if cur.isEmpty then [] else [cur.reverse]
  | c :: cs =>
    if p c then runsAux p (c :: cur) cs
    else if cur.isEmpty then runsAux p [] cs
    else cur.reverse :: runsAux p [] cs

/-- Python `str.lower` on the ASCII range, applied characterwise. -/
def lowerChar (c : Char) : Char :=
  if 65 ≤ c.toNat ∧ c.toNat ≤ 90 then Char.ofNat (c.toNat + 32) else c

/-- Lowercase a matched run and repack it as a string (`word.lower()`). -/
def lowerRun (r : List Char) : String :=
  String.mk (r.map lowerChar)

/-- SpamFilter._tokenize_words: the set of lowercased maximal `[a-z0-9']+`
runs of the message. -/
def tokenize_words (message : String) : Finset String :=
  ((runsAux isWordChar [] message.toList).map lowerRun).toFinset

/-- State of a `SpamFilter` object.  Each defaultdict is a key set plus a
total function that returns the default value off the key set. -/
@[ext]
structure SpamFilter where
  number_of_spam_messages : ℕ
  number_of_non_spam_messages : ℕ
  /-- key set of the `_words_count` defaultdict -/
  count_keys : Finset String
  /-- per-token (spam, non-spam) message counts; `(0, 0)` off `count_keys` -/
  words_count : String → ℕ × ℕ
  /-- key set of the `_words_probabilities` defaultdict -/
  prob_keys : Finset String
  /-- per-token (P(token|spam), P(token|non-spam)); `(0, 0)` off `prob_keys` -/
  words_probabilities : String → ℚ × ℚ

/-- SpamFilter.__init__: zero totals, empty dicts. -/
def SpamFilter.init : SpamFilter :=
  ⟨0, 0, ∅, fun _ => (0, 0), ∅, fun _ => (0, 0)⟩

/-- One iteration of the message loop in SpamFilter._add_messages: bump the
class total, tokenize, and bump each token's count for the message's class. -/
def addMessage (m : SpamFilter) (msg : Bool × String) : SpamFilter :=
  let words := tokenize_words msg.2
  { m with
    number_of_spam_messages :=
      if msg.1 then m.number_of_spam_messages + 1 else m.number_of_spam_messages
    number_of_non_spam_messages :=
      if msg.1 then m.number_of_non_spam_messages else m.number_of_non_spam_messages + 1
    count_keys := m.count_keys ∪ words
    words_count := fun w =>
      if w ∈ words then
        if msg.1 then ((m.words_count w).1 + 1, (m.words_count w).2)
        else ((m.words_count w).1, (m.words_count w).2 + 1)
      else m.words_count w }

/-- SpamFilter._recalculate_probabilities: for every key of `_words_count`,
store the additively smoothed conditional probabilities. -/
def recalculate_probabilities (m : SpamFilter) : SpamFilter :=
  { m with
    prob_keys := m.prob_keys ∪ m.count_keys
    words_probabilities := fun w =>
      if w ∈ m.count_keys then
        ((0.5 + ((m.words_count w).1 : ℚ)) / (1 + (m.number_of_spam_messages : ℚ)),
         (0.5 + ((m.words_count w).2 : ℚ)) / (1 + (m.number_of_non_spam_messages : ℚ)))
      else m.words_probabilities w }

/-- SpamFilter._add_messages: fold the batch into the counters, then do the
full probability recomputation. -/
def add_messages (m : SpamFilter) (messages : List (Bool × String)) : SpamFilter :=
  recalculate_probabilities (messages.foldl addMessage m)

/-- SpamFilter.train. -/
def train (m : SpamFilter) (messages : List (Bool × String)) : SpamFilter :=
  add_messages m messages

/-- SpamFilter.probability_spam: log-domain accumulation of the priors and of
presence/absence evidence for every token of `_words_probabilities`, then
normalization back in linear space. -/
noncomputable def probability_spam (m : SpamFilter) (message : String) : ℝ :=
  let words_in_message := tokenize_words message
  let spam_probability : ℝ :=
    Real.log ((0.5 + (m.number_of_spam_messages : ℝ)) /
        (1 + (m.number_of_spam_messages : ℝ) + (m.number_of_non_spam_messages : ℝ))) +
      ∑ w ∈ m.prob_keys,
        (if w ∈ words_in_message then Real.log ((m.words_probabilities w).1 : ℝ)
         else Real.log (1 - ((m.words_probabilities w).1 : ℝ)))
  let non_spam_probability : ℝ :=
    Real.log ((0.5 + (m.number_of_non_spam_messages : ℝ)) /
        (1 + (m.number_of_spam_messages : ℝ) + (m.number_of_non_spam_messages : ℝ))) +
      ∑ w ∈ m.prob_keys,
        (if w ∈ words_in_message then Real.log ((m.words_probabilities w).2 : ℝ)
         else Real.log (1 - ((m.words_probabilities w).2 : ℝ)))
  Real.exp spam_probability / (Real.exp spam_probability + Real.exp non_spam_probability)

/-- Row loop of split_train_test: row `i` goes to the test list when the
i-th draw of the random source is at most `test_size_int`, else to the
training list; both lists keep the input order. -/
def split_go {α : Type*} (test_size_int : ℕ) (rand : ℕ → ℕ) :
    ℕ → List α → List α × List α
  | _, [] => ([], [])
  | i, row :: rest =>
    let p := split_go test_size_int rand (i + 1) rest
    if rand i ≤ test_size_int then (p.1, row :: p.2) else (row :: p.1, p.2)

/-- split_train_test: validate `test_size`, then distribute the rows. -/
def split_train_test {α : Type*} (data : List α) (test_size : ℚ) (rand : ℕ → ℕ) :
    Except String (List α × List α) :=
  if ¬(0.99 > test_size ∧ test_size > 0.1) then
    Except.error "test_size must be between 0.1 and 0.99"
  else
    Except.ok (split_go (test_size * 100).floor.toNat rand 0 data)

/-! Helper lemmas about the split function. -/

lemma split_go_perm {α : Type*} (k : ℕ) (r : ℕ → ℕ) :
    ∀ (l : List α) (i : ℕ), ((split_go k r i l).1 ++ (split_go k r i l).2).Perm l
  | [], _ => by simp [split_go]
  | row :: rest, i => by
    have ih := split_go_perm k r rest (i + 1)
    simp only [split_go]
    split
    · exact List.perm_middle.trans (ih.cons row)
    · simpa using ih.cons row

lemma split_go_sublist {α : Type*} (k : ℕ) (r : ℕ → ℕ) :
    ∀ (l : List α) (i : ℕ),
      (split_go k r i l).1.Sublist l ∧ (split_go k r i l).2.Sublist l
  | [], _ => by simp [split_go]
  | row :: rest, i => by
    have ih := split_go_sublist k r rest (i + 1)
    simp only [split_go]
    split
    · exact ⟨ih.1.cons row, ih.2.cons₂ row⟩
    · exact ⟨ih.1.cons₂ row, ih.2.cons row⟩

/-- C7: split_train_test reports an error exactly when test_size lies
outside the open interval (0.1, 0.99); any value strictly inside is
accepted. -/
theorem split_train_test_validation {α : Type*} (data : List α) (test_size : ℚ)
    (rand : ℕ → ℕ) :
    (∃ e : String, split_train_test data test_size rand = Except.error e) ↔
      ¬(0.1 < test_size ∧ test_size < 0.99) := by
  unfold split_train_test
  by_cases h : 0.99 > test_size ∧ test_size > 0.1
  · rw [if_neg (not_not_intro h)]
    constructor
    · rintro ⟨e, he⟩
      exact absurd he (by simp)
    · intro hc
      exact absurd ⟨h.2, h.1⟩ hc
  · rw [if_pos h]
    constructor
    · intro _ hc
      exact h ⟨hc.2, hc.1⟩
    · intro _
      exact ⟨_, rfl⟩

/-- C8: for every valid test_size and every outcome of the random source,
split_train_test succeeds and returns two lists whose lengths sum to the
input length and whose concatenation is a permutation of the input (each
row placed exactly once, none duplicated or dropped). -/
theorem split_train_test_partition {α : Type*} (data : List α) (test_size : ℚ)
    (rand : ℕ → ℕ) (h : 0.1 < test_size ∧ test_size < 0.99) :
    ∃ tr te : List α, split_train_test data test_size rand = Except.ok (tr, te) ∧
      tr.length + te.length = data.length ∧ (tr ++ te).Perm data := by
  have hc : ¬¬(0.99 > test_size ∧ test_size > 0.1) := not_not_intro ⟨h.2, h.1⟩
  refine ⟨(split_go ((test_size * 100).floor.toNat) rand 0 data).1,
    (split_go ((test_size * 100).floor.toNat) rand 0 data).2, ?_, ?_, ?_⟩
  · unfold split_train_test
    rw [if_neg hc]
  · have hp := (split_go_perm ((test_size * 100).floor.toNat) rand data 0).length_eq
    simpa using hp
  · exact split_go_perm ((test_size * 100).floor.toNat) rand data 0

/-- C8 witness: a concrete split with test_size 0.4. -/
theorem split_train_test_partition_witness :
    ∃ tr te : List ℕ,
      split_train_test [10, 20, 30, 40] (2/5) (fun i => 30 * i + 1) =
          Except.ok (tr, te) ∧
        tr.length + te.length = ([10, 20, 30, 40] : List ℕ).length ∧
        (tr ++ te).Perm [10, 20, 30, 40] :=
  split_train_test_partition [10, 20, 30, 40] (2/5) (fun i => 30 * i + 1)
    (by norm_num)

/-- C10: whenever split_train_test succeeds, each returned list is an
order-preserving subsequence of the input list (the input itself is not
modified: the embedding is pure, as is the Python function up to list
append on fresh lists). -/
theorem split_train_test_sublists {α : Type*} (data tr te : List α)
    (test_size : ℚ) (rand : ℕ → ℕ)
    (h : split_train_test data test_size rand = Except.ok (tr, te)) :
    tr.Sublist data ∧ te.Sublist data := by
  unfold split_train_test at h
  by_cases hc : ¬(0.99 > test_size ∧ test_size > 0.1)
  · rw [if_pos hc] at h
    exact absurd h (by simp)
  · rw [if_neg hc] at h
    have h2 := Except.ok.inj h
    have e1 : tr = (split_go ((test_size * 100).floor.toNat) rand 0 data).1 := by
      rw [h2]
    have e2 : te = (split_go ((test_size * 100).floor.toNat) rand 0 data).2 := by
      rw [h2]
    rw [e1, e2]
    exact split_go_sublist _ rand data 0

/-- C10 witness: a concrete successful split (the draws 0, 41, 82 put the
first row in the test list and the other two in the training list). -/
theorem split_train_test_sublists_witness :
    ([20, 30] : List ℕ).Sublist [10, 20, 30] ∧ ([10] : List ℕ).Sublist [10, 20, 30] :=
  split_train_test_sublists [10, 20, 30] [20, 30] [10] (2/5) (fun i => 41 * i)
    (by
      unfold split_train_test
      rw [if_neg (by norm_num)]
      have hcut : (((2:ℚ)/5) * 100).floor.toNat = 40 := by
        norm_num [Rat.floor_def']
        rfl
      rw [hcut]
      congr 1)

/-- C3: the source regex `[a-z0-9']+` does not treat the dash as a word
character, so "e-mail" tokenizes to the two tokens "e" and "mail" (not the
single token "e-mail") and a dashes-only string tokenizes to the empty set
(not to a dashes-only token), contradicting both the claim and the
function's own docstring. -/
theorem tokenize_words_drops_dashes :
    tokenize_words "e-mail" = {"e", "mail"} ∧ tokenize_words "---" = ∅ := by
  decide

/-- C6: on the untrained model both priors are ln(0.5/1), the vocabulary
loop is empty, and probability_spam returns exactly 0.5 on every text. -/
theorem probability_spam_untrained (text : String) :
    probability_spam SpamFilter.init text = 0.5 := by
  unfold probability_spam SpamFilter.init
  simp only [Finset.sum_empty, add_zero, Nat.cast_zero]
  norm_num
  rw [div_eq_iff (by positivity)]
  ring

/-- C2: after every call to train, every token of the counter dict has its
stored probabilities equal to (0.5 + count)/(1 + class total) for each class,
computed from the counters and totals obtained after the whole batch was
folded in (the recomputation covers the entire vocabulary, prior batches
included, because it ranges over all keys of the counter dict). -/
theorem train_probabilities (m : SpamFilter) (msgs : List (Bool × String))
    (w : String) (hw : w ∈ (train m msgs).count_keys) :
    (train m msgs).words_probabilities w =
      ((0.5 + (((train m msgs).words_count w).1 : ℚ)) /
          (1 + ((train m msgs).number_of_spam_messages : ℚ)),
       (0.5 + (((train m msgs).words_count w).2 : ℚ)) /
          (1 + ((train m msgs).number_of_non_spam_messages : ℚ))) := by
  unfold train add_messages recalculate_probabilities at hw ⊢
  simp only at hw ⊢
  rw [if_pos hw]

/-- C2 witness: after training on one spam message "win money", the token
"win" carries the smoothed probabilities. -/
theorem train_probabilities_witness :
    (train SpamFilter.init [(true, "win money")]).words_probabilities "win" =
      ((0.5 + (((train SpamFilter.init [(true, "win money")]).words_count "win").1 : ℚ)) /
          (1 + ((train SpamFilter.init [(true, "win money")]).number_of_spam_messages : ℚ)),
       (0.5 + (((train SpamFilter.init [(true, "win money")]).words_count "win").2 : ℚ)) /
          (1 + ((train SpamFilter.init [(true, "win money")]).number_of_non_spam_messages : ℚ))) :=
  train_probabilities SpamFilter.init [(true, "win money")] "win" (by decide)

/-- C1: probability_spam starts both accumulators at the prior log-ratios
ln((0.5+total_spam)/(1+total_spam+total_non_spam)) and
ln((0.5+total_non_spam)/(1+total_spam+total_non_spam)), adds, for every
token of the probability dict (the full vocabulary), ln(P(token|class)) when
the token occurs in the tokenized message and ln(1 - P(token|class)) when it
does not, and returns exp(spam)/(exp(spam)+exp(non-spam)). -/
theorem probability_spam_formula (m : SpamFilter) (text : String) :
    probability_spam m text =
      Real.exp
          (Real.log ((0.5 + (m.number_of_spam_messages : ℝ)) /
              (1 + (m.number_of_spam_messages : ℝ) + (m.number_of_non_spam_messages : ℝ))) +
            ∑ w ∈ m.prob_keys,
              (if w ∈ tokenize_words text then Real.log ((m.words_probabilities w).1 : ℝ)
               else Real.log (1 - ((m.words_probabilities w).1 : ℝ)))) /
        (Real.exp
            (Real.log ((0.5 + (m.number_of_spam_messages : ℝ)) /
                (1 + (m.number_of_spam_messages : ℝ) + (m.number_of_non_spam_messages : ℝ))) +
              ∑ w ∈ m.prob_keys,
                (if w ∈ tokenize_words text then Real.log ((m.words_probabilities w).1 : ℝ)
                 else Real.log (1 - ((m.words_probabilities w).1 : ℝ)))) +
          Real.exp
            (Real.log ((0.5 + (m.number_of_non_spam_messages : ℝ)) /
                (1 + (m.number_of_spam_messages : ℝ) + (m.number_of_non_spam_messages : ℝ))) +
              ∑ w ∈ m.prob_keys,
                (if w ∈ tokenize_words text then Real.log ((m.words_probabilities w).2 : ℝ)
                 else Real.log (1 - ((m.words_probabilities w).2 : ℝ))))) := rfl

/-! Helper lemmas for case-insensitivity of tokenization. -/

/-- Characterwise ASCII lowercasing of a whole string; two strings are case
variants of one another exactly when their caseFold images coincide. -/
def caseFold (s : String) : String :=
  String.mk (s.toList.map lowerChar)

lemma toNat_ofNat_add32 (c : Char) (h : 65 ≤ c.toNat ∧ c.toNat ≤ 90) :
    (Char.ofNat (c.toNat + 32)).toNat = c.toNat + 32 := by
  have hv : (c.toNat + 32).isValidChar := Or.inl (by omega)
  unfold Char.ofNat
  rw [dif_pos hv]
  unfold Char.ofNatAux
  simp [Char.toNat, UInt32.toNat, UInt32.ofNat']

lemma lower_isWordChar (c : Char) : isWordChar (lowerChar c) = isWordChar c := by
  unfold lowerChar
  by_cases h : 65 ≤ c.toNat ∧ c.toNat ≤ 90
  · rw [if_pos h]
    have ht := toNat_ofNat_add32 c h
    simp only [isWordChar, ht]
    obtain ⟨h1, h2⟩ := h
    have e1 : (97 ≤ c.toNat + 32 && c.toNat + 32 ≤ 122) = true := by
      simp
      omega
    have e2 : (65 ≤ c.toNat && c.toNat ≤ 90) = true := by
      simp
      omega
    simp [e1, e2]
  · rw [if_neg h]

lemma lowerChar_idem (c : Char) : lowerChar (lowerChar c) = lowerChar c := by
  unfold lowerChar
  by_cases h : 65 ≤ c.toNat ∧ c.toNat ≤ 90
  · rw [if_pos h]
    have ht := toNat_ofNat_add32 c h
    rw [if_neg (by omega)]
  · rw [if_neg h, if_neg h]

lemma runsAux_map (p : Char → Bool) (f : Char → Char) (hf : ∀ c, p (f c) = p c)
    (l : List Char) : ∀ cur : List Char,
    runsAux p (cur.map f) (l.map f) = (runsAux p cur l).map (List.map f) := by
  induction l with
  | nil =>
    intro cur
    simp only [List.map_nil, runsAux]
    by_cases h : cur.isEmpty
    · have h2 : (cur.map f).isEmpty = true := by
        simp only [List.isEmpty_iff] at h ⊢
        simp [h]
      rw [if_pos h2, if_pos h]
      simp
    · have h2 : ¬(cur.map f).isEmpty = true := by
        simp only [List.isEmpty_iff] at h ⊢
        simp [h]
      rw [if_neg h2, if_neg h]
      simp
  | cons c cs ih =>
    intro cur
    simp only [List.map_cons, runsAux, hf c]
    by_cases hpc : p c
    · rw [if_pos hpc, if_pos hpc]
      exact ih (c :: cur)
    · rw [if_neg hpc, if_neg hpc]
      by_cases h : cur.isEmpty
      · have h2 : (cur.map f).isEmpty = true := by
          simp only [List.isEmpty_iff] at h ⊢
          simp [h]
        rw [if_pos h2, if_pos h]
        have hih := ih []
        simpa using hih
      · have h2 : ¬(cur.map f).isEmpty = true := by
          simp only [List.isEmpty_iff] at h ⊢
          simp [h]
        rw [if_neg h2, if_neg h, List.map_cons, List.map_reverse]
        have hih := ih []
        simp only [List.map_nil] at hih
        rw [hih]

lemma lowerRun_map_lowerChar (r : List Char) : lowerRun (r.map lowerChar) = lowerRun r := by
  unfold lowerRun
  rw [List.map_map]
  congr 1
  exact List.map_congr_left fun c _ => lowerChar_idem c

lemma tokenize_words_caseFold (t : String) :
    tokenize_words (caseFold t) = tokenize_words t := by
  unfold tokenize_words caseFold
  rw [show (String.mk (t.toList.map lowerChar)).toList = t.toList.map lowerChar from rfl]
  have h := runsAux_map isWordChar lowerChar lower_isWordChar t.toList []
  simp only [List.map_nil] at h
  rw [h, List.map_map]
  congr 1
  exact List.map_congr_left fun r _ => lowerRun_map_lowerChar r

/-- C9: classification is case-insensitive: on any model state, two texts
that agree after characterwise lowercasing (in particular any pair of case
variants of the same text) classify identically, because tokenization
case-folds before matching. -/
theorem probability_spam_case_insensitive (m : SpamFilter) (t₁ t₂ : String)
    (h : caseFold t₁ = caseFold t₂) :
    probability_spam m t₁ = probability_spam m t₂ := by
  have ht : tokenize_words t₁ = tokenize_words t₂ := by
    rw [← tokenize_words_caseFold t₁, ← tokenize_words_caseFold t₂, h]
  unfold probability_spam
  rw [ht]

/-- C9 witness: "FREE MONEY" and "free money" classify identically on a
concretely trained model. -/
theorem probability_spam_case_insensitive_witness :
    probability_spam (train SpamFilter.init [(true, "free money"), (false, "meeting notes")])
        "FREE MONEY" =
      probability_spam (train SpamFilter.init [(true, "free money"), (false, "meeting notes")])
        "free money" :=
  probability_spam_case_insensitive
    (train SpamFilter.init [(true, "free money"), (false, "meeting notes")])
    "FREE MONEY" "free money" (by decide)


/-! Projection lemmas for the state-updating operations. -/

@[simp] lemma addMessage_number_of_spam_messages (m : SpamFilter) (msg : Bool × String) :
    (addMessage m msg).number_of_spam_messages =
      if msg.1 then m.number_of_spam_messages + 1 else m.number_of_spam_messages := rfl

@[simp] lemma addMessage_number_of_non_spam_messages (m : SpamFilter) (msg : Bool × String) :
    (addMessage m msg).number_of_non_spam_messages =
      if msg.1 then m.number_of_non_spam_messages else m.number_of_non_spam_messages + 1 := rfl

@[simp] lemma addMessage_count_keys (m : SpamFilter) (msg : Bool × String) :
    (addMessage m msg).count_keys = m.count_keys ∪ tokenize_words msg.2 := rfl

@[simp] lemma addMessage_words_count (m : SpamFilter) (msg : Bool × String) :
    (addMessage m msg).words_count = fun w =>
      if w ∈ tokenize_words msg.2 then
        if msg.1 then ((m.words_count w).1 + 1, (m.words_count w).2)
        else ((m.words_count w).1, (m.words_count w).2 + 1)
      else m.words_count w := rfl

@[simp] lemma addMessage_prob_keys (m : SpamFilter) (msg : Bool × String) :
    (addMessage m msg).prob_keys = m.prob_keys := rfl

@[simp] lemma addMessage_words_probabilities (m : SpamFilter) (msg : Bool × String) :
    (addMessage m msg).words_probabilities = m.words_probabilities := rfl

@[simp] lemma recalculate_number_of_spam_messages (m : SpamFilter) :
    (recalculate_probabilities m).number_of_spam_messages = m.number_of_spam_messages := rfl

@[simp] lemma recalculate_number_of_non_spam_messages (m : SpamFilter) :
    (recalculate_probabilities m).number_of_non_spam_messages =
      m.number_of_non_spam_messages := rfl

@[simp] lemma recalculate_count_keys (m : SpamFilter) :
    (recalculate_probabilities m).count_keys = m.count_keys := rfl

@[simp] lemma recalculate_words_count (m : SpamFilter) :
    (recalculate_probabilities m).words_count = m.words_count := rfl

@[simp] lemma recalculate_prob_keys (m : SpamFilter) :
    (recalculate_probabilities m).prob_keys = m.prob_keys ∪ m.count_keys := rfl

@[simp] lemma recalculate_words_probabilities (m : SpamFilter) :
    (recalculate_probabilities m).words_probabilities = fun w =>
      if w ∈ m.count_keys then
        ((0.5 + ((m.words_count w).1 : ℚ)) / (1 + (m.number_of_spam_messages : ℚ)),
         (0.5 + ((m.words_count w).2 : ℚ)) / (1 + (m.number_of_non_spam_messages : ℚ)))
      else m.words_probabilities w := rfl

/-! Helper lemmas about folding batches of messages into the counters. -/

lemma foldl_addMessage_prob_keys (l : List (Bool × String)) :
    ∀ m : SpamFilter, (l.foldl addMessage m).prob_keys = m.prob_keys := by
  induction l with
  | nil => intro m; rfl
  | cons x xs ih => intro m; rw [List.foldl_cons, ih]; rfl

lemma foldl_addMessage_probs (l : List (Bool × String)) :
    ∀ m : SpamFilter, (l.foldl addMessage m).words_probabilities = m.words_probabilities := by
  induction l with
  | nil => intro m; rfl
  | cons x xs ih => intro m; rw [List.foldl_cons, ih]; rfl

lemma foldl_addMessage_count_keys_mono (l : List (Bool × String)) :
    ∀ m : SpamFilter, m.count_keys ⊆ (l.foldl addMessage m).count_keys := by
  induction l with
  | nil => intro m; exact Finset.Subset.refl _
  | cons x xs ih =>
    intro m
    rw [List.foldl_cons]
    exact Finset.Subset.trans Finset.subset_union_left (ih (addMessage m x))

lemma foldl_addMessage_congr_core (l : List (Bool × String)) :
    ∀ m m' : SpamFilter,
      m'.number_of_spam_messages = m.number_of_spam_messages →
      m'.number_of_non_spam_messages = m.number_of_non_spam_messages →
      m'.count_keys = m.count_keys →
      m'.words_count = m.words_count →
      (l.foldl addMessage m').number_of_spam_messages =
          (l.foldl addMessage m).number_of_spam_messages ∧
        (l.foldl addMessage m').number_of_non_spam_messages =
          (l.foldl addMessage m).number_of_non_spam_messages ∧
        (l.foldl addMessage m').count_keys = (l.foldl addMessage m).count_keys ∧
        (l.foldl addMessage m').words_count = (l.foldl addMessage m).words_count := by
  induction l with
  | nil =>
    intro m m' h1 h2 h3 h4
    exact ⟨h1, h2, h3, h4⟩
  | cons x xs ih =>
    intro m m' h1 h2 h3 h4
    rw [List.foldl_cons, List.foldl_cons]
    exact ih (addMessage m x) (addMessage m' x)
      (by simp [h1]) (by simp [h2]) (by simp [h3]) (by simp [h4])

lemma addMessage_comm (m : SpamFilter) (p q : Bool × String) :
    addMessage (addMessage m p) q = addMessage (addMessage m q) p := by
  apply SpamFilter.ext
  · by_cases hp : p.1 <;> by_cases hq : q.1 <;> simp [hp, hq]
  · by_cases hp : p.1 <;> by_cases hq : q.1 <;> simp [hp, hq]
  · simp only [addMessage_count_keys]
    exact Finset.union_right_comm _ _ _
  · funext w
    by_cases hp : w ∈ tokenize_words p.2 <;> by_cases hq : w ∈ tokenize_words q.2 <;>
      by_cases hsp : p.1 <;> by_cases hsq : q.1 <;> simp [hp, hq, hsp, hsq]
  · rfl
  · rfl

lemma train_append (A B : List (Bool × String)) :
    train (train SpamFilter.init A) B = train SpamFilter.init (A ++ B) := by
  unfold train add_messages
  rw [List.foldl_append]
  have hcore := foldl_addMessage_congr_core B
    (A.foldl addMessage SpamFilter.init)
    (recalculate_probabilities (A.foldl addMessage SpamFilter.init))
    rfl rfl rfl rfl
  obtain ⟨e1, e2, e3, e4⟩ := hcore
  have hApk : (A.foldl addMessage SpamFilter.init).prob_keys = ∅ := by
    rw [foldl_addMessage_prob_keys]
    rfl
  have hAwp : (A.foldl addMessage SpamFilter.init).words_probabilities = fun _ => (0, 0) := by
    rw [foldl_addMessage_probs]
    rfl
  have hBpk : (B.foldl addMessage (A.foldl addMessage SpamFilter.init)).prob_keys = ∅ := by
    rw [foldl_addMessage_prob_keys, hApk]
  have hBwp : (B.foldl addMessage (A.foldl addMessage SpamFilter.init)).words_probabilities =
      fun _ => (0, 0) := by
    rw [foldl_addMessage_probs, hAwp]
  have hFpk : (B.foldl addMessage
      (recalculate_probabilities (A.foldl addMessage SpamFilter.init))).prob_keys =
      (A.foldl addMessage SpamFilter.init).count_keys := by
    rw [foldl_addMessage_prob_keys, recalculate_prob_keys, hApk, Finset.empty_union]
  have hFwp : (B.foldl addMessage
      (recalculate_probabilities (A.foldl addMessage SpamFilter.init))).words_probabilities =
      (recalculate_probabilities (A.foldl addMessage SpamFilter.init)).words_probabilities :=
    foldl_addMessage_probs B _
  have hsub : (A.foldl addMessage SpamFilter.init).count_keys ⊆
      (B.foldl addMessage (A.foldl addMessage SpamFilter.init)).count_keys :=
    foldl_addMessage_count_keys_mono B _
  apply SpamFilter.ext
  · rw [recalculate_number_of_spam_messages, recalculate_number_of_spam_messages, e1]
  · rw [recalculate_number_of_non_spam_messages, recalculate_number_of_non_spam_messages, e2]
  · rw [recalculate_count_keys, recalculate_count_keys, e3]
  · rw [recalculate_words_count, recalculate_words_count, e4]
  · rw [recalculate_prob_keys, recalculate_prob_keys, e3, hFpk, hBpk, Finset.empty_union]
    exact Finset.union_eq_right.mpr hsub
  · rw [recalculate_words_probabilities, recalculate_words_probabilities]
    funext w
    rw [e1, e2, e3, e4]
    by_cases hw : w ∈ (B.foldl addMessage (A.foldl addMessage SpamFilter.init)).count_keys
    · rw [if_pos hw, if_pos hw]
    · rw [if_neg hw, if_neg hw, hBwp, hFwp, recalculate_words_probabilities]
      have hwA : w ∉ (A.foldl addMessage SpamFilter.init).count_keys :=
        fun hc => hw (hsub hc)
      simp only [if_neg hwA, hAwp]

/-- C4: training is cumulative and batch-boundary invariant: train(A) then
train(B) on a fresh model produces the identical state (class totals,
counter dict, and probability dict) as train(A ++ B) once, and training on
any permutation of the concatenated messages also yields that same state. -/
theorem train_cumulative (A B C : List (Bool × String)) (h : C.Perm (A ++ B)) :
    train (train SpamFilter.init A) B = train SpamFilter.init (A ++ B) ∧
      train SpamFilter.init C = train SpamFilter.init (A ++ B) := by
  constructor
  · exact train_append A B
  · unfold train add_messages
    congr 1
    exact h.foldl_eq' (fun x _ y _ z => addMessage_comm z x y) SpamFilter.init

/-- C4 witness: concrete batches and a permutation of their concatenation. -/
theorem train_cumulative_witness :
    train (train SpamFilter.init [(true, "win money")]) [(false, "meeting notes")] =
        train SpamFilter.init [(true, "win money"), (false, "meeting notes")] ∧
      train SpamFilter.init [(false, "meeting notes"), (true, "win money")] =
        train SpamFilter.init [(true, "win money"), (false, "meeting notes")] :=
  train_cumulative [(true, "win money")] [(false, "meeting notes")]
    [(false, "meeting notes"), (true, "win money")] (by decide)

/-! Reachability and the counter-bound invariant needed for C5. -/

/-- Models obtainable from a fresh SpamFilter by any sequence of train
calls. -/
inductive Reachable : SpamFilter → Prop
  | base : Reachable SpamFilter.init
  | step (m : SpamFilter) (msgs : List (Bool × String)) :
      Reachable m → Reachable (train m msgs)

/-- Invariant: every per-token count is at most the corresponding class
total (a token is counted at most once per message of the class). -/
def CountsBounded (m : SpamFilter) : Prop :=
  ∀ w : String, (m.words_count w).1 ≤ m.number_of_spam_messages ∧
    (m.words_count w).2 ≤ m.number_of_non_spam_messages

lemma countsBounded_addMessage (m : SpamFilter) (msg : Bool × String)
    (h : CountsBounded m) : CountsBounded (addMessage m msg) := by
  intro w
  have hw := h w
  by_cases hmem : w ∈ tokenize_words msg.2 <;> by_cases hs : msg.1 <;>
    simp [hmem, hs] <;> omega

lemma countsBounded_foldl (l : List (Bool × String)) :
    ∀ m : SpamFilter, CountsBounded m → CountsBounded (l.foldl addMessage m) := by
  induction l with
  | nil => intro m h; exact h
  | cons x xs ih =>
    intro m h
    rw [List.foldl_cons]
    exact ih (addMessage m x) (countsBounded_addMessage m x h)

lemma reachable_countsBounded (m : SpamFilter) (h : Reachable m) : CountsBounded m := by
  induction h with
  | base => intro w; exact ⟨le_refl 0, le_refl 0⟩
  | step m' msgs _ ih =>
    intro w
    have hfold := countsBounded_foldl msgs m' ih w
    unfold train add_messages
    simpa using hfold

/-- C5: on every model reachable by training, every token of the vocabulary
has both stored probabilities strictly between 0 and 1 (exact rational
arithmetic), thanks to the 0.5/1 smoothing and the count ≤ total invariant. -/
theorem probabilities_strictly_between (m : SpamFilter) (hm : Reachable m)
    (w : String) (hw : w ∈ m.count_keys) :
    0 < (m.words_probabilities w).1 ∧ (m.words_probabilities w).1 < 1 ∧
      0 < (m.words_probabilities w).2 ∧ (m.words_probabilities w).2 < 1 := by
  cases hm with
  | base =>
    exact absurd hw (by simp [SpamFilter.init])
  | step m' msgs hm' =>
    have hb : CountsBounded (msgs.foldl addMessage m') :=
      countsBounded_foldl msgs m' (reachable_countsBounded m' hm')
    unfold train add_messages at hw ⊢
    rw [recalculate_count_keys] at hw
    rw [recalculate_words_probabilities]
    simp only [if_pos hw]
    set F := msgs.foldl addMessage m' with hF
    obtain ⟨hb1, hb2⟩ := hb w
    have d1 : (0:ℚ) < 1 + (F.number_of_spam_messages : ℚ) := by positivity
    have d2 : (0:ℚ) < 1 + (F.number_of_non_spam_messages : ℚ) := by positivity
    refine ⟨div_pos (by positivity) d1, ?_, div_pos (by positivity) d2, ?_⟩
    · rw [div_lt_one d1]
      have : ((F.words_count w).1 : ℚ) ≤ (F.number_of_spam_messages : ℚ) := by
        exact_mod_cast hb1
      linarith
    · rw [div_lt_one d2]
      have : ((F.words_count w).2 : ℚ) ≤ (F.number_of_non_spam_messages : ℚ) := by
        exact_mod_cast hb2
      linarith

/-- C5 witness: the token "win" after one concrete training call. -/
theorem probabilities_strictly_between_witness :
    0 < ((train SpamFilter.init [(true, "win money"), (false, "meeting")]).words_probabilities
          "win").1 ∧
      ((train SpamFilter.init [(true, "win money"), (false, "meeting")]).words_probabilities
          "win").1 < 1 ∧
      0 < ((train SpamFilter.init [(true, "win money"), (false, "meeting")]).words_probabilities
          "win").2 ∧
      ((train SpamFilter.init [(true, "win money"), (false, "meeting")]).words_probabilities
          "win").2 < 1 :=
  probabilities_strictly_between
    (train SpamFilter.init [(true, "win money"), (false, "meeting")])
    (Reachable.step SpamFilter.init [(true, "win money"), (false, "meeting")] Reachable.base)
    "win" (by decide)
